import Mathlib

/-!
Verification of the retention kernels in `yet_another_retnet/retention.py`.

Tensors are embedded shallowly as total functions from natural-number indices
to real numbers; the shape of a tensor is carried by the explicit dimension
arguments of each operation (the index bounds that the contractions sum over,
and the bounds quantified in the theorems).  Floating-point arithmetic is
embedded as exact real arithmetic.
-/

namespace Retnet

/-- A rank-3 tensor `x[b, h, d]`, embedded as a total function on indices. -/
abbrev Tensor3 := ℕ → ℕ → ℕ → ℝ

/-- A rank-4 tensor `x[b, h, n, d]` (or a recurrent state `S[b, h, d, m]`),
embedded as a total function on indices. -/
abbrev Tensor4 := ℕ → ℕ → ℕ → ℕ → ℝ

/-- Entry `i` of `torch.linspace a b steps`: `steps` evenly spaced points from
`a` to `b` inclusive, i.e. `a + i * (b - a) / (steps - 1)`.  For `steps = 1`
torch returns the single point `a`; the formula agrees because in that case the
division is by zero, which Lean evaluates to `0`. -/
noncomputable def linspace (a b : ℝ) (steps i : ℕ) : ℝ :=
  a + i * (b - a) / ((steps : ℝ) - 1)

/-- `_build_decay_gammas` from the source: interpolate `num_heads` exponents
linearly between `log(1/32)` and `log(1/512)` and map each exponent `x` to the
coefficient `1 - exp x`.  Embedded as the function giving head `i`'s
coefficient. -/
noncomputable def _build_decay_gammas (num_heads i : ℕ) : ℝ :=
  1 - Real.exp (linspace (Real.log (1 / 32)) (Real.log (1 / 512)) num_heads i)

/-- The decay-coefficient vector returned by `_build_decay_gammas`, as the
length-`num_heads` list of per-head coefficients. -/
noncomputable def _build_decay_gammas_vec (num_heads : ℕ) : List ℝ :=
  (List.range num_heads).map (_build_decay_gammas num_heads)

/-- `_build_decay_mask` from the source, at entry `(h, n, s)`.  The source
builds the distance matrix `|n - s|`, overwrites the strict upper triangle
(`s > n`) with `+∞`, and raises `γ_h` to the resulting power, relying on
`γ^∞ = 0` for `0 ≤ γ < 1`; in exact arithmetic that collapses to: `0` on the
strict upper triangle and `γ_h^(n-s)` at or below the diagonal. -/
def _build_decay_mask (decay_gammas : ℕ → ℝ) (h n s : ℕ) : ℝ :=
  if n < s then 0 else decay_gammas h ^ (n - s)

/-- `einsum(query, key, "b h n d, b h s d -> b h n s")` with head dimension
`hidden_dim`: the raw query-key similarity. -/
noncomputable def similarity (hidden_dim : ℕ) (query key : Tensor4) : Tensor4 :=
  fun b h n s => ∑ d ∈ Finset.range hidden_dim, query b h n d * key b h s d

/-- The similarity matrix after elementwise multiplication by the decay mask
(`similarity = similarity * rearrange(decay_mask, "h n s -> () h n s")`). -/
noncomputable def masked_similarity (hidden_dim : ℕ) (query key : Tensor4)
    (decay_gammas : ℕ → ℝ) : Tensor4 :=
  fun b h n s => similarity hidden_dim query key b h n s * _build_decay_mask decay_gammas h n s

/-- `retention_parallel` from the source.  `num_heads` is `query.shape[1]`
(used only to derive the default decay coefficients when none are supplied),
`hidden_dim` is the head dimension contracted between query and key, and
`key_length` is `key.shape[2]`, the sequence axis contracted with the value.
Returns the retention output and, when `need_weights` is set, the masked
similarity matrix. -/
noncomputable def retention_parallel (num_heads hidden_dim key_length : ℕ)
    (query key value : Tensor4) (decay_gammas : Option (ℕ → ℝ))
    (need_weights : Bool) : Tensor4 × Option Tensor4 :=
  let gammas := decay_gammas.getD (_build_decay_gammas num_heads)
  let sim := masked_similarity hidden_dim query key gammas
  let retention : Tensor4 :=
    fun b h n d => ∑ s ∈ Finset.range key_length, sim b h n s * value b h s d
  (retention, if need_weights then some sim else none)

/-- `retention_recurrent` from the source.  `num_heads` is `query.shape[1]`
(used only for the default decay coefficients), `hidden_dim` the head dimension
contracted between the query and the state.  The new state is the key⊗value
outer product, plus the previous state scaled by `γ_h` when one is supplied;
the output contracts the query with the new state. -/
noncomputable def retention_recurrent (num_heads hidden_dim : ℕ)
    (query key value : Tensor3) (prev_state : Option Tensor4)
    (decay_gammas : Option (ℕ → ℝ)) : Tensor3 × Tensor4 :=
  let gammas := decay_gammas.getD (_build_decay_gammas num_heads)
  let outer : Tensor4 := fun b h d m => key b h d * value b h m
  let state : Tensor4 :=
    match prev_state with
    | some s => fun b h d m => outer b h d m + s b h d m * gammas h
    | none => outer
  let retention : Tensor3 :=
    fun b h m => ∑ d ∈ Finset.range hidden_dim, query b h d * state b h d m
  (retention, state)

/-- Timestep `t` of a full-sequence rank-4 tensor: `x[:, :, t]`. -/
def timestep (x : Tensor4) (t : ℕ) : Tensor3 :=
  fun b h d => x b h t d

/-- Calling `retention_recurrent` in temporal order over a full sequence:
step `0` starts from the absent state, and step `t+1` feeds the state returned
by step `t`.  Returns the output and state of step `t`. -/
noncomputable def recurrentRun (num_heads hidden_dim : ℕ) (query key value : Tensor4)
    (gammas : ℕ → ℝ) : ℕ → Tensor3 × Tensor4
  | 0 => retention_recurrent num_heads hidden_dim
      (timestep query 0) (timestep key 0) (timestep value 0) none (some gammas)
  | t + 1 => retention_recurrent num_heads hidden_dim
      (timestep query (t + 1)) (timestep key (t + 1)) (timestep value (t + 1))
      (some (recurrentRun num_heads hidden_dim query key value gammas t).2) (some gammas)

/-- The configuration errors `MultiheadRetention.__init__` can raise, in the
order the source checks them. -/
inductive RetentionInitError where
  | notImplemented
  | embedDimNotDivisible
  | headDimNotMultipleOf8
  | headDimTooLarge
deriving DecidableEq

/-- The validation performed by `MultiheadRetention.__init__`: reject
`batch_first = False` outright, then require `embed_dim` divisible by
`num_heads`, the head dimension `embed_dim / num_heads` divisible by 8 and at
most 128; otherwise construction succeeds. -/
def MultiheadRetention.init (embed_dim num_heads : ℕ) (batch_first : Bool) :
    Except RetentionInitError Unit :=
  if !batch_first then .error .notImplemented
  else if embed_dim % num_heads ≠ 0 then .error .embedDimNotDivisible
  else if embed_dim / num_heads % 8 ≠ 0 then .error .headDimNotMultipleOf8
  else if ¬ embed_dim / num_heads ≤ 128 then .error .headDimTooLarge
  else .ok ()

lemma linspace_zero (a b : ℝ) (steps : ℕ) : linspace a b steps 0 = a := by
  simp [linspace]

lemma linspace_two_one (a b : ℝ) : linspace a b 2 1 = b := by
  unfold linspace
  norm_num

lemma log_one_div_512_lt_log_one_div_32 :
    Real.log (1 / 512) < Real.log (1 / 32) :=
  Real.log_lt_log (by norm_num) (by norm_num)

/-- Every interpolated exponent is at most `log (1/32)`, hence negative. -/
lemma linspace_log_neg (H i : ℕ) (hH : 1 ≤ H) :
    linspace (Real.log (1 / 32)) (Real.log (1 / 512)) H i < 0 := by
  have hlog : Real.log (1 / 32) < 0 := Real.log_neg (by norm_num) (by norm_num)
  have hd : Real.log (1 / 512) - Real.log (1 / 32) ≤ 0 :=
    sub_nonpos.mpr (le_of_lt log_one_div_512_lt_log_one_div_32)
  have hden : (0 : ℝ) ≤ (H : ℝ) - 1 := by
    have : (1 : ℝ) ≤ (H : ℝ) := by exact_mod_cast hH
    linarith
  have hterm : (i : ℝ) * (Real.log (1 / 512) - Real.log (1 / 32)) / ((H : ℝ) - 1) ≤ 0 :=
    div_nonpos_iff.mpr (Or.inr ⟨mul_nonpos_of_nonneg_of_nonpos (Nat.cast_nonneg i) hd, hden⟩)
  unfold linspace
  linarith

/-- C5: every coefficient produced by `_build_decay_gammas` lies strictly
between 0 and 1, for every head count `H ≥ 1` and head index `i < H`. -/
theorem decay_gammas_mem_Ioo (H i : ℕ) (hH : 1 ≤ H) (_hi : i < H) :
    0 < _build_decay_gammas H i ∧ _build_decay_gammas H i < 1 := by
  have hx : linspace (Real.log (1 / 32)) (Real.log (1 / 512)) H i < 0 :=
    linspace_log_neg H i hH
  have h1 : Real.exp (linspace (Real.log (1 / 32)) (Real.log (1 / 512)) H i) < 1 :=
    Real.exp_lt_one_iff.mpr hx
  have h0 : 0 < Real.exp (linspace (Real.log (1 / 32)) (Real.log (1 / 512)) H i) :=
    Real.exp_pos _
  constructor
  · unfold _build_decay_gammas
    linarith
  · unfold _build_decay_gammas
    linarith

/-- C5 witness: the single-head schedule's coefficient is in `(0, 1)`. -/
theorem decay_gammas_mem_Ioo_witness :
    (1 ≤ 1 ∧ 0 < 1) ∧
      (0 < _build_decay_gammas 1 0 ∧ _build_decay_gammas 1 0 < 1) :=
  ⟨⟨le_refl 1, Nat.zero_lt_one⟩, decay_gammas_mem_Ioo 1 0 (le_refl 1) Nat.zero_lt_one⟩

/-- C4: for two heads the schedule interpolates the exponents between
`log (1/32)` and `log (1/512)` inclusive, so the returned vector is exactly
`[1 - 1/32, 1 - 1/512]`, and the two coefficients are distinct. -/
theorem decay_gammas_two_heads :
    _build_decay_gammas_vec 2 = [1 - 1 / 32, 1 - 1 / 512] ∧
      _build_decay_gammas 2 0 ≠ _build_decay_gammas 2 1 := by
  have h0 : _build_decay_gammas 2 0 = 1 - 1 / 32 := by
    unfold _build_decay_gammas
    rw [linspace_zero, Real.exp_log (by norm_num)]
  have h1 : _build_decay_gammas 2 1 = 1 - 1 / 512 := by
    unfold _build_decay_gammas
    rw [linspace_two_one, Real.exp_log (by norm_num)]
  refine ⟨?_, ?_⟩
  · unfold _build_decay_gammas_vec
    rw [show List.range 2 = [0, 1] by rfl]
    simp [h0, h1]
  · rw [h0, h1]
    norm_num

/-- C10: for a single head the interpolation degenerates to its start bound
`log (1/32)`, so the schedule returns exactly one coefficient, `31/32`. -/
theorem decay_gammas_single_head :
    _build_decay_gammas_vec 1 = [(31 / 32 : ℝ)] := by
  unfold _build_decay_gammas_vec
  rw [show List.range 1 = [0] by rfl]
  unfold _build_decay_gammas
  rw [List.map_cons, List.map_nil, linspace_zero, Real.exp_log (by norm_num)]
  norm_num

/-- C2: for head `h < H` and positions `i < N`, `j < M`, with every decay
coefficient in `(0, 1)`, the decay mask is `γ_h^(i-j)` at or below the diagonal
(in particular `1` on the diagonal) and `0` strictly above it. -/
theorem decay_mask_spec (H N M : ℕ) (γ : ℕ → ℝ) (h i j : ℕ)
    (_hh : h < H) (_hi : i < N) (_hj : j < M)
    (_hγ : ∀ h', h' < H → 0 < γ h' ∧ γ h' < 1) :
    (j ≤ i → _build_decay_mask γ h i j = γ h ^ (i - j)) ∧
      _build_decay_mask γ h i i = 1 ∧
      (i < j → _build_decay_mask γ h i j = 0) := by
  refine ⟨fun hji => ?_, ?_, fun hij => ?_⟩
  · simp [_build_decay_mask, Nat.not_lt.mpr hji]
  · simp [_build_decay_mask]
  · simp [_build_decay_mask, hij]

/-- C2 witness at `H = 1`, `N = 2`, `M = 2`, `γ ≡ 1/2`, `h = 0`, `i = 1`,
`j = 0`. -/
theorem decay_mask_spec_witness :
    (0 ≤ 1 → _build_decay_mask (fun _ => (1 : ℝ) / 2) 0 1 0 = ((1 : ℝ) / 2) ^ (1 - 0)) ∧
      _build_decay_mask (fun _ => (1 : ℝ) / 2) 0 1 1 = 1 ∧
      (1 < 0 → _build_decay_mask (fun _ => (1 : ℝ) / 2) 0 1 0 = 0) :=
  decay_mask_spec 1 2 2 (fun _ => (1 : ℝ) / 2) 0 1 0 (by decide) (by decide) (by decide)
    (fun _ _ => by norm_num)

/-- C3: the recurrent kernel's new state is `key⊗value + γ_h · S_{t-1}` when a
previous state is supplied and exactly the raw outer product `key⊗value` when
it is absent, and its output contracts the query against the new state. -/
theorem retention_recurrent_spec (H Dh : ℕ) (q k v : Tensor3) (S : Tensor4)
    (prev : Option Tensor4) (γ : ℕ → ℝ) (b h d m : ℕ) :
    (retention_recurrent H Dh q k v (some S) (some γ)).2 b h d m
        = k b h d * v b h m + γ h * S b h d m ∧
      (retention_recurrent H Dh q k v none (some γ)).2 b h d m
        = k b h d * v b h m ∧
      (retention_recurrent H Dh q k v prev (some γ)).1 b h m
        = ∑ d' ∈ Finset.range Dh,
            q b h d' * (retention_recurrent H Dh q k v prev (some γ)).2 b h d' m := by
  refine ⟨?_, rfl, ?_⟩
  · simp [retention_recurrent, mul_comm]
  · cases prev <;> rfl

/-- C8: the parallel kernel returns the decay-masked similarity matrix as its
second result exactly when weights are requested (and `none` otherwise), with
the retention output unaffected by the flag. -/
theorem retention_parallel_weights_spec (H Dh M : ℕ) (q k v : Tensor4)
    (dg : Option (ℕ → ℝ)) :
    (retention_parallel H Dh M q k v dg true).2
        = some (masked_similarity Dh q k (dg.getD (_build_decay_gammas H))) ∧
      (retention_parallel H Dh M q k v dg false).2 = none ∧
      (retention_parallel H Dh M q k v dg true).1
        = (retention_parallel H Dh M q k v dg false).1 :=
  ⟨rfl, rfl, rfl⟩

/-- C7: construction with `batch_first = false` always fails with the
unsupported-mode error; with `batch_first = true` it succeeds exactly when the
embedding dimension is divisible by the head count and the head dimension is a
multiple of 8 and at most 128; in particular `embed_dim = 15`, `num_heads = 2`
fails with the divisibility error. -/
theorem multihead_init_spec (e n : ℕ) (_hn : 0 < n) :
    MultiheadRetention.init e n false = .error .notImplemented ∧
      (MultiheadRetention.init e n true = .ok () ↔
        e % n = 0 ∧ e / n % 8 = 0 ∧ e / n ≤ 128) ∧
      MultiheadRetention.init 15 2 true = .error .embedDimNotDivisible := by
  refine ⟨rfl, ?_, rfl⟩
  unfold MultiheadRetention.init
  split_ifs with h1 h2 h3 <;> simp_all

/-- C7 witness at `embed_dim = 16`, `num_heads = 2` (a valid configuration). -/
theorem multihead_init_spec_witness :
    MultiheadRetention.init 16 2 false = .error .notImplemented ∧
      (MultiheadRetention.init 16 2 true = .ok () ↔
        16 % 2 = 0 ∧ 16 / 2 % 8 = 0 ∧ 16 / 2 ≤ 128) ∧
      MultiheadRetention.init 15 2 true = .error .embedDimNotDivisible :=
  multihead_init_spec 16 2 (by decide)

/-- The all-ones rank-4 tensor: the same all-ones vector at every batch, head
and position. -/
def onesTensor : Tensor4 := fun _ _ _ _ => 1

/-- A full-sequence tensor feeding the same per-head vector `x h d` at every
batch index and every position. -/
def constPos (x : ℕ → ℕ → ℝ) : Tensor4 := fun _ h _ d => x h d

/-- C6 counterexample: in Scenario B's configuration (2 heads, sequence length
8, head dimension 8) with the all-ones vector fed as query, key and value at
every position, the parallel output at position 0 is `8`, not the value
vector's entry `1`. -/
theorem parallel_first_position_counterexample :
    (retention_parallel 2 8 8 onesTensor onesTensor onesTensor none false).1 0 0 0 0 = 8 ∧
      onesTensor 0 0 0 0 = 1 ∧
      (retention_parallel 2 8 8 onesTensor onesTensor onesTensor none false).1 0 0 0 0
        ≠ onesTensor 0 0 0 0 := by
  have h8 : (retention_parallel 2 8 8 onesTensor onesTensor onesTensor none false).1 0 0 0 0
      = 8 := by
    show ∑ s ∈ Finset.range 8,
        masked_similarity 8 onesTensor onesTensor (_build_decay_gammas 2) 0 0 0 s
          * onesTensor 0 0 s 0 = 8
    simp [masked_similarity, similarity, _build_decay_mask, onesTensor,
      Finset.sum_range_succ]
  refine ⟨h8, rfl, ?_⟩
  rw [h8]
  norm_num [onesTensor]

/-- C6 amended: in Scenario B's configuration, feeding the same per-head
vector as query, key and value at every position, the parallel output at
position 0 is the query·key inner product at position 0 times the value
vector — the value vector itself exactly when that inner product is 1. -/
theorem parallel_first_position_amended (x : ℕ → ℕ → ℝ) (h m : ℕ) :
    (retention_parallel 2 8 8 (constPos x) (constPos x) (constPos x) none false).1 0 h 0 m
      = (∑ d ∈ Finset.range 8, x h d * x h d) * x h m := by
  show ∑ s ∈ Finset.range 8,
      masked_similarity 8 (constPos x) (constPos x) (_build_decay_gammas 2) 0 h 0 s
        * constPos x 0 h s m
    = (∑ d ∈ Finset.range 8, x h d * x h d) * x h m
  simp [masked_similarity, similarity, _build_decay_mask, constPos,
    Finset.sum_range_succ]

/-- Unfolding the output of a recurrent step: at every step `t` it is the
contraction of timestep `t`'s query with the state returned at step `t`. -/
lemma recurrentRun_fst (H Dh : ℕ) (q k v : Tensor4) (γ : ℕ → ℝ) (t b h m : ℕ) :
    (recurrentRun H Dh q k v γ t).1 b h m
      = ∑ d ∈ Finset.range Dh, q b h t d * (recurrentRun H Dh q k v γ t).2 b h d m := by
  cases t <;> rfl

/-- Closed form of the recurrent state after `t + 1` steps: each past
timestep `j ≤ t` contributes its key⊗value outer product decayed by
`γ_h^(t-j)`. -/
lemma recurrentRun_state_closed (H Dh : ℕ) (q k v : Tensor4) (γ : ℕ → ℝ)
    (t b h d m : ℕ) :
    (recurrentRun H Dh q k v γ t).2 b h d m
      = ∑ j ∈ Finset.range (t + 1), γ h ^ (t - j) * (k b h j d * v b h j m) := by
  induction t with
  | zero =>
    simp [recurrentRun, retention_recurrent, timestep]
  | succ t ih =>
    have hstep : (recurrentRun H Dh q k v γ (t + 1)).2 b h d m
        = k b h (t + 1) d * v b h (t + 1) m
          + (recurrentRun H Dh q k v γ t).2 b h d m * γ h := rfl
    have hcongr : ∀ j ∈ Finset.range (t + 1),
        γ h ^ (t - j) * (k b h j d * v b h j m) * γ h
          = γ h ^ (t + 1 - j) * (k b h j d * v b h j m) := by
      intro j hj
      have hjt : j ≤ t := Nat.lt_succ_iff.mp (Finset.mem_range.mp hj)
      rw [Nat.succ_sub hjt, pow_succ]
      ring
    rw [hstep, ih, Finset.sum_mul, Finset.sum_congr rfl hcongr]
    conv_rhs => rw [Finset.sum_range_succ]
    simp [Nat.sub_self, add_comm]

/-- C1: kernel equivalence.  Calling `retention_recurrent` in temporal order
over a length-`T` sequence (starting from the absent state and threading each
returned state) produces at every timestep `t < T` exactly row `t` of a single
`retention_parallel` call on the full sequence with the same decay
coefficients, in exact real arithmetic, at every batch, head and coordinate
index. -/
theorem recurrent_eq_parallel (H Dh T : ℕ) (q k v : Tensor4) (γ : ℕ → ℝ)
    (t : ℕ) (ht : t < T) (b h m : ℕ) :
    (recurrentRun H Dh q k v γ t).1 b h m
      = (retention_parallel H Dh T q k v (some γ) false).1 b h t m := by
  rw [recurrentRun_fst]
  simp only [recurrentRun_state_closed]
  rw [show (retention_parallel H Dh T q k v (some γ) false).1 b h t m
      = ∑ s ∈ Finset.range T,
          masked_similarity Dh q k γ b h t s * v b h s m from rfl]
  have hsub : Finset.range (t + 1) ⊆ Finset.range T := Finset.range_subset.mpr ht
  have hzero : ∀ s ∈ Finset.range T, s ∉ Finset.range (t + 1) →
      masked_similarity Dh q k γ b h t s * v b h s m = 0 := by
    intro s _ hs
    have hts : t < s := Nat.lt_of_succ_le (Nat.not_lt.mp (fun hlt =>
      hs (Finset.mem_range.mpr hlt)))
    simp [masked_similarity, _build_decay_mask, hts]
  rw [← Finset.sum_subset hsub hzero]
  simp only [Finset.mul_sum]
  rw [Finset.sum_comm]
  apply Finset.sum_congr rfl
  intro j hj
  have hjt : j ≤ t := Nat.lt_succ_iff.mp (Finset.mem_range.mp hj)
  have hmask : _build_decay_mask γ h t j = γ h ^ (t - j) := by
    unfold _build_decay_mask
    exact if_neg (Nat.not_lt.mpr hjt)
  simp only [masked_similarity, similarity, hmask, Finset.sum_mul]
  apply Finset.sum_congr rfl
  intro d _
  ring

/-- C1 witness: the equivalence at a concrete configuration (one head, head
dimension 1, sequence length 1, all-ones inputs, `γ ≡ 1/2`). -/
theorem recurrent_eq_parallel_witness :
    0 < 1 ∧
      (recurrentRun 1 1 onesTensor onesTensor onesTensor (fun _ => (1 : ℝ) / 2) 0).1 0 0 0
        = (retention_parallel 1 1 1 onesTensor onesTensor onesTensor
            (some (fun _ => (1 : ℝ) / 2)) false).1 0 0 0 0 :=
  ⟨Nat.zero_lt_one,
    recurrent_eq_parallel 1 1 1 onesTensor onesTensor onesTensor
      (fun _ => (1 : ℝ) / 2) 0 Nat.zero_lt_one 0 0 0⟩

end Retnet
